import Mathlib

/-!
Verification of the chilix-msg message framework core against its
natural-language specification.

The development shallowly embeds the Go sources:
  * `codec/balanced_codec.go` — the balanced binary frame codec
    (encode/decode, TLV extension region, AES-GCM envelope);
  * `core/type_registry.go`   — the FNV-1a-32 string/id registry;
  * the `core` processor      — read-loop error classification, reply
    correlation against the `RequestManager`, outbound send paths.

Byte streams are `List Nat` (each element a byte value), machine integers
are `Nat` with explicit `% 2^w` where the Go code truncates, fallible
operations return `Except`.  External collaborators (serializer, AEAD
cipher) are structure-valued parameters, exactly as the Go code consumes
them through interfaces.
-/

deriving instance DecidableEq for Except

namespace ChilixMsg

/-! ### Byte-level helpers

`toBytesBE w v` is the big-endian `w`-byte encoding of `v` (the image of
Go's `binary.BigEndian.PutUintN` and of the manual shift/truncate writes);
`fromBytesBE` is big-endian byte composition (`binary.BigEndian.UintN`,
and the manual `int(b0)<<16 | int(b1)<<8 | int(b2)` reads — on byte
values `< 256` the Go bit-or of disjoint shifted bytes equals this
composition). -/

def toBytesBE : Nat → Nat → List Nat
  | 0, _ => []
  | w + 1, v => toBytesBE w (v / 256) ++ [v % 256]

def fromBytesBE (bs : List Nat) : Nat :=
  bs.foldl (fun a b => a * 256 + b) 0

theorem length_toBytesBE (w v : Nat) : (toBytesBE w v).length = w := by
  induction w generalizing v with
  | zero => rfl
  | succ w ih => simp [toBytesBE, ih]

theorem fromBytesBE_append (bs : List Nat) (b : Nat) :
    fromBytesBE (bs ++ [b]) = fromBytesBE bs * 256 + b := by
  simp [fromBytesBE, List.foldl_append]

theorem fromBytesBE_toBytesBE (w v : Nat) :
    fromBytesBE (toBytesBE w v) = v % 2 ^ (8 * w) := by
  induction w generalizing v with
  | zero => simp [toBytesBE, fromBytesBE, Nat.mod_one]
  | succ w ih =>
      rw [toBytesBE, fromBytesBE_append, ih]
      have h256 : (2 : Nat) ^ (8 * (w + 1)) = 256 * 2 ^ (8 * w) := by ring
      rw [h256, Nat.mod_mul]
      ring

theorem toBytesBE_lt (w v : Nat) : ∀ b ∈ toBytesBE w v, b < 256 := by
  induction w generalizing v with
  | zero => simp [toBytesBE]
  | succ w ih =>
      intro b hb
      rw [toBytesBE] at hb
      rcases List.mem_append.mp hb with h | h
      · exact ih _ _ h
      · simp only [List.mem_singleton] at h
        subst h
        exact Nat.mod_lt _ (by norm_num)

/-! ### Protocol constants — `codec/balanced_codec.go` -/

/-- Magic constant `0x4348504D` ("CHPM"). -/
def MagicNumber : Nat := 0x4348504D

/-- Maximum total frame size in bytes (16 MiB). -/
def MaxMessageSize : Nat := 16 * 1024 * 1024

/-- Protocol version nibble. -/
def BalancedVersion : Nat := 2

/-- Fixed header size used by both encode and decode.  The Go constant is
`21` even though the field widths (and the constant's own doc comment)
add up to Magic(4) + Version/Flags(1) + Length(3) + RequestID(8) +
TypeID(4) = 20 bytes; the 21st byte is a zero pad that `EncodeWithFlags`
emits (it allocates a 21-byte buffer and assigns only the first 20) and
`DecodeWithFlags` reads and ignores. -/
def BalancedHeaderSize : Nat := 21

def BalancedFlagNone : Nat := 0x0
def BalancedFlagCompressed : Nat := 0x1
def BalancedFlagEncrypted : Nat := 0x2
def BalancedFlagExtended : Nat := 0x8

/-- Errors of the codec and its collaborators.  The named variants carry
the messages of the corresponding Go `errors.New` declarations;
`readError` carries the message of an `io` error returned verbatim
(`io.ReadFull`: "EOF" when nothing was read, "unexpected EOF" on a short
read); `external` stands for an error produced by a collaborator
(serializer, AEAD) and returned verbatim. -/
inductive CodecError where
  | invalidMagic
  | unsupportedVersion
  | invalidLength
  | invalidMessageFormat
  | messageTooLarge
  | encryptionFailed
  | decryptionFailed
  | invalidKey
  | typeConflict
  | readError (msg : String)
  | external (msg : String)
deriving DecidableEq, Repr

/-- Result of Go's `err.Error()` on each modelled error.  The strings of
`ErrInvalidMagic`, `ErrInvalidLength`, `ErrMessageTooLarge`,
`ErrEncryptionFailed`, `ErrDecryptionFailed`, `ErrInvalidKey` are in
`codec/balanced_codec.go`; `ErrInvalidMessageFormat` is in
`codec/errors.go`; `ErrTypeConflict` is in `core/type_registry.go`.
`ErrUnsupportedVersion` is referenced by `balanced_codec.go` but its
declaration is not among the provided sources — modelled from the spec
(§7 names the kind `UnsupportedVersion`); only the fact that its message
differs from the two connection-closed strings matters below. -/
def CodecError.message : CodecError → String
  | .invalidMagic => "invalid magic number"
  | .unsupportedVersion => "unsupported protocol version"
  | .invalidLength => "invalid message length"
  | .invalidMessageFormat => "invalid message format"
  | .messageTooLarge => "message too large"
  | .encryptionFailed => "encryption failed"
  | .decryptionFailed => "decryption failed"
  | .invalidKey => "invalid encryption key"
  | .typeConflict => "type hash conflict"
  | .readError msg => msg
  | .external msg => msg

/-! ### TLV extension fields and collaborator models -/

/-- TLV extension field: `Type uint8`, `Length uint16`, `Value []byte`. -/
structure TLV where
  type : Nat
  length : Nat
  value : List Nat
deriving DecidableEq, Repr

/-- Well-formedness of a `TLV` value as constrained by the Go types and
the wire format: `Type` fits a byte, `Length` fits sixteen bits, is
non-zero (a zero length is the region sentinel) and matches the value. -/
def TLV.WF (t : TLV) : Prop :=
  t.type < 256 ∧ 0 < t.length ∧ t.length < 65536 ∧ t.length = t.value.length

instance (t : TLV) : Decidable t.WF := by unfold TLV.WF; infer_instance

/-- Model of the `serializer.Serializer` interface consumed by the codec:
`Serialize(value) → bytes | err` and `Deserialize(bytes, target) → err`
(the deserialized value is returned rather than written through a
pointer). -/
structure SerializerModel (α : Type) where
  serialize : α → Except CodecError (List Nat)
  deserialize : List Nat → Except CodecError α

/-- The `BinarySerializer` of `pkg/serializer/binary.go` restricted to
byte-slice payloads: serialization and deserialization are the
identity. -/
def binarySerializer : SerializerModel (List Nat) :=
  ⟨fun d => .ok d, fun d => .ok d⟩

/-- Model of the codec's `Encryptor` interface:
`Encrypt(data) → bytes | err`, `Decrypt(data) → bytes | err`. -/
structure EncryptorModel where
  encrypt : List Nat → Except CodecError (List Nat)
  decrypt : List Nat → Except CodecError (List Nat)

/-- Bytes emitted for one TLV inside the extension region: one type
byte, the two big-endian length bytes, then the value bytes (the value
is appended in full regardless of the declared length, as in the Go
loop). -/
def encodeTLV (t : TLV) : List Nat :=
  t.type % 256 :: (t.length / 256) % 256 :: t.length % 256 :: t.value

/-- The whole extension region for a non-empty extension list: the TLVs
in order followed by the three-byte zero sentinel. -/
def extRegion (extensions : List TLV) : List Nat :=
  (extensions.map encodeTLV).flatten ++ [0, 0, 0]

/-- The `extLen` accumulator of the Go encode loop: `3 + len(tlv.Value)`
per TLV plus `3` for the sentinel. -/
def extRegionLen (extensions : List TLV) : Nat :=
  (extensions.map (fun t => 3 + t.value.length)).sum + 3

theorem length_encodeTLV (t : TLV) : (encodeTLV t).length = 3 + t.value.length := by
  simp [encodeTLV]; omega

theorem extRegion_cons (t : TLV) (ts : List TLV) :
    extRegion (t :: ts) = encodeTLV t ++ extRegion ts := by
  simp [extRegion]

theorem length_extRegion (extensions : List TLV) :
    (extRegion extensions).length = extRegionLen extensions := by
  induction extensions with
  | nil => simp [extRegion, extRegionLen]
  | cons t ts ih =>
      simp only [extRegion_cons, extRegionLen, List.map_cons, List.sum_cons,
        List.length_append, length_encodeTLV, ih] at *
      omega

/-! ### Encoding — `BalancedCodec.EncodeWithFlags`

Encoding is split exactly along the numbered steps of the Go function:
step 2 (`encryptStep`), steps 3–6 (`encodeFrame`), and the whole
function (`encodeWithFlags`).  The result of a successful encode is the
ordered list of chunks passed to the writer's `Write` calls — one call
for the 21-byte header buffer, one for the extension region when it is
non-empty, one for the payload — so both the wire bytes (their
concatenation) and the write granularity are observable. -/

/-- Step 2 of `EncodeWithFlags`: when the `Encrypted` flag is set, an
encryptor must be configured (`ErrEncryptionFailed` otherwise) and the
serialized bytes are replaced by `Encryptor.Encrypt`. -/
def encryptStep (encr : Option EncryptorModel) (flags : Nat) (data : List Nat) :
    Except CodecError (List Nat) :=
  if flags &&& BalancedFlagEncrypted ≠ 0 then
    match encr with
    | none => .error .encryptionFailed
    | some e => e.encrypt data
  else .ok data

/-- Steps 3–6 of `EncodeWithFlags`: force the `Extended` flag when
extensions are present, build the extension region and the 21-byte
header (20 assigned bytes plus the trailing zero of the `make` buffer),
check the total length, and issue the writes. -/
def encodeFrame (typeID : Nat) (data : List Nat) (requestID flags : Nat)
    (extensions : List TLV) : Except CodecError (List (List Nat)) :=
  let flags' := if extensions ≠ [] then flags ||| BalancedFlagExtended else flags
  let extData := if extensions ≠ [] then extRegion extensions else []
  let extLen := if extensions ≠ [] then extRegionLen extensions else 0
  -- the Go reconciliation `if extLen != len(extData) { extLen = len(extData) }`
  let extLen := if extLen = extData.length then extLen else extData.length
  let totalLength := BalancedHeaderSize + extLen + data.length
  if totalLength > MaxMessageSize then .error .messageTooLarge
  else
    let header := toBytesBE 4 MagicNumber
      ++ [(BalancedVersion <<< 4) ||| flags']
      ++ toBytesBE 3 totalLength
      ++ toBytesBE 8 requestID
      ++ toBytesBE 4 typeID
      ++ [0]
    if extLen > 0 then .ok [header, extData, data] else .ok [header, data]

/-- The codec's `EncodeWithFlags`: serialize, encrypt when flagged, then
frame.  `Encode` is `EncodeWithFlags` with `flags = BalancedFlagNone`
and no extensions. -/
def encodeWithFlags {α : Type} (S : SerializerModel α) (encr : Option EncryptorModel)
    (typeID : Nat) (payload : α) (requestID flags : Nat) (extensions : List TLV) :
    Except CodecError (List (List Nat)) := do
  let data ← S.serialize payload
  let data ← encryptStep encr flags data
  encodeFrame typeID data requestID flags extensions

/-- The codec's `Encode` entry point. -/
def encode {α : Type} (S : SerializerModel α) (encr : Option EncryptorModel)
    (typeID : Nat) (payload : α) (requestID : Nat) :
    Except CodecError (List (List Nat)) :=
  encodeWithFlags S encr typeID payload requestID BalancedFlagNone []

/-! ### Decoding — `BalancedCodec.DecodeWithFlags`

The reader is modelled as a byte list; a decode returns the parsed
fields together with the unconsumed remainder of the stream. -/

/-- Model of `io.ReadFull` over a list stream: `n` bytes are taken when
available; otherwise the verbatim `io` error surfaces ("EOF" when the
stream is empty, "unexpected EOF" on a short read). -/
def readFull (n : Nat) (input : List Nat) :
    Except CodecError (List Nat × List Nat) :=
  if n ≤ input.length then .ok (input.take n, input.drop n)
  else if input.isEmpty then .error (.readError "EOF")
  else .error (.readError "unexpected EOF")

/-- Step 7 of `DecodeWithFlags`: the TLV read loop.  Each iteration
reads a 3-byte TLV header; a zero length terminates the region (the
3 sentinel bytes are consumed), otherwise the declared number of value
bytes is read.  Returns the TLVs in wire order, the accumulated
`extLen` (`3 + length` per TLV plus `3` for the sentinel), and the rest
of the stream. -/
def readTLVsAux : Nat → List Nat → Except CodecError (List TLV × Nat × List Nat)
  | 0, _ => .error (.readError "EOF")
  | fuel + 1, t :: h1 :: h2 :: rest =>
    let len := h1 * 256 + h2
    if len = 0 then .ok ([], 3, rest)
    else if rest.length < len then
      if rest.isEmpty then .error (.readError "EOF")
      else .error (.readError "unexpected EOF")
    else
      match readTLVsAux fuel (rest.drop len) with
      | .error e => .error e
      | .ok (tlvs, extLen, rest') =>
          .ok (⟨t, len, rest.take len⟩ :: tlvs, extLen + (3 + len), rest')
  | _ + 1, [] => .error (.readError "EOF")
  | _ + 1, [_] => .error (.readError "unexpected EOF")
  | _ + 1, [_, _] => .error (.readError "unexpected EOF")

/-- The TLV loop over a stream.  The Go loop is unbounded; here it is
run with fuel `input.length + 1`, which cannot be exhausted before the
loop terminates on its own, because every iteration either stops (zero
length, short read) or consumes at least 3 bytes of the stream. -/
def readTLVs (input : List Nat) : Except CodecError (List TLV × Nat × List Nat) :=
  readTLVsAux (input.length + 1) input

/-- Step 9 of `DecodeWithFlags`: when the `Encrypted` flag is set, a
configured encryptor is required (`ErrDecryptionFailed` otherwise) and
the payload is replaced by `Encryptor.Decrypt`. -/
def decryptStep (encr : Option EncryptorModel) (flags : Nat) (payload : List Nat) :
    Except CodecError (List Nat) :=
  if flags &&& BalancedFlagEncrypted ≠ 0 then
    match encr with
    | none => .error .decryptionFailed
    | some e => e.decrypt payload
  else .ok payload

/-- The decoded fields of one frame, in the order of the Go return
values `(typeID, payload, requestID, flags, extensions)`. -/
structure Decoded where
  typeID : Nat
  payload : List Nat
  requestID : Nat
  flags : Nat
  extensions : List TLV
deriving DecidableEq, Repr

/-- The codec's `DecodeWithFlags` on a byte stream.  Reads the 21-byte
fixed header (byte 20 is ignored), validates magic, version and total
length, reads the extension region when flagged, reads
`total - 21 - extLen` payload bytes (`ErrInvalidMessageFormat` when that
is negative), and decrypts when flagged.  Returns the decoded frame and
the unconsumed stream. -/
def decodeWithFlags (encr : Option EncryptorModel) (input : List Nat) :
    Except CodecError (Decoded × List Nat) :=
  match input with
  | m0 :: m1 :: m2 :: m3 :: vf :: l0 :: l1 :: l2
      :: r0 :: r1 :: r2 :: r3 :: r4 :: r5 :: r6 :: r7
      :: t0 :: t1 :: t2 :: t3 :: _pad :: rest =>
    if fromBytesBE [m0, m1, m2, m3] ≠ MagicNumber then .error .invalidMagic
    else
      let version := vf >>> 4
      let flags := vf &&& 0xF
      if version ≠ BalancedVersion then .error .unsupportedVersion
      else
        let totalLength := fromBytesBE [l0, l1, l2]
        if totalLength < BalancedHeaderSize ∨ totalLength > MaxMessageSize then
          .error .invalidLength
        else
          let requestID := fromBytesBE [r0, r1, r2, r3, r4, r5, r6, r7]
          let typeID := fromBytesBE [t0, t1, t2, t3]
          match (if flags &&& BalancedFlagExtended ≠ 0 then readTLVs rest
                 else .ok ([], 0, rest)) with
          | .error e => .error e
          | .ok (extensions, extLen, rest2) =>
            let payloadLength : Int := (totalLength : Int) - BalancedHeaderSize - extLen
            if payloadLength < 0 then .error .invalidMessageFormat
            else
              match readFull payloadLength.toNat rest2 with
              | .error e => .error e
              | .ok (payload, rest3) =>
                match decryptStep encr flags payload with
                | .error e => .error e
                | .ok payload' =>
                    .ok (⟨typeID, payload', requestID, flags, extensions⟩, rest3)
  | input' =>
      if input'.isEmpty then .error (.readError "EOF")
      else .error (.readError "unexpected EOF")

/-! ### AES encryptor — `NewAESEncryptor`, `AESEncryptor.Encrypt/Decrypt`

The AES-GCM AEAD itself is Go standard-library code
(`crypto/aes`, `crypto/cipher`), outside this repository; it is
abstracted as a `GCMModel` parameter: a nonce size, a seal function and
an open function, with the AEAD's inversion property taken as a
hypothesis where needed.  The repository code around it — the key-size
check, the `nonce ‖ Seal(...)` layout of `Encrypt` (Go passes the nonce
as both destination prefix and nonce to `gcm.Seal`), and `Decrypt`'s
nonce split with the short-input check — is modelled faithfully. -/

structure GCMModel where
  nonceSize : Nat
  aeadSeal : List Nat → List Nat → List Nat
  aeadOpen : List Nat → List Nat → Option (List Nat)

/-- The `AESEncryptor` struct: it stores the key. -/
structure AESEncryptor where
  key : List Nat
deriving DecidableEq, Repr

/-- Constructor `NewAESEncryptor`: keys of length 16, 24 or 32 bytes are
accepted, anything else fails with `ErrInvalidKey`. -/
def NewAESEncryptor (key : List Nat) : Except CodecError AESEncryptor :=
  if key.length ≠ 16 ∧ key.length ≠ 24 ∧ key.length ≠ 32 then .error .invalidKey
  else .ok ⟨key⟩

/-- The encryptor's `Encrypt`: draw a fresh nonce of the AEAD's nonce
size (the random draw is a parameter here) and output
`nonce ‖ Seal(nonce, data)`. -/
def AESEncryptor.encryptWith (g : GCMModel) (nonce : List Nat)
    (_e : AESEncryptor) (data : List Nat) : List Nat :=
  nonce ++ g.aeadSeal nonce data

/-- The encryptor's `Decrypt`: inputs shorter than the nonce size fail
with `ErrDecryptionFailed`; otherwise the nonce prefix is split off and
the AEAD open runs, its failure surfacing verbatim. -/
def AESEncryptor.decryptWith (g : GCMModel) (_e : AESEncryptor)
    (data : List Nat) : Except CodecError (List Nat) :=
  if data.length < g.nonceSize then .error .decryptionFailed
  else
    match g.aeadOpen (data.take g.nonceSize) (data.drop g.nonceSize) with
    | some plaintext => .ok plaintext
    | none => .error (.external "cipher: message authentication failed")

/-! ### Type registry — `core/type_registry.go`

Go maps are modelled as association lists looked up with `List.lookup`;
insertion is cons, which shadows any older binding exactly as a map
store overwrites. -/

/-- UTF-8 bytes of a string, the image of Go's `[]byte(msgType)`. -/
def utf8Bytes (s : String) : List Nat :=
  s.toUTF8.data.toList.map (fun b => b.toNat)

/-- FNV-1a 32-bit hash over a byte sequence, as computed by
`hash/fnv`'s `New32a`: offset basis `2166136261`, per byte XOR then
multiply by the prime `16777619`, truncated to 32 bits. -/
def fnv32a (bytes : List Nat) : Nat :=
  bytes.foldl (fun h b => ((h ^^^ b) * 16777619) % 4294967296) 2166136261

/-- The registry's two maps. -/
structure Registry where
  nameToID : List (String × Nat)
  idToName : List (Nat × String)
deriving Repr

def Registry.empty : Registry := ⟨[], []⟩

/-- `Registry.Register`: hash the name; if the id is already bound to a
different name fail with `ErrTypeConflict` leaving the registry
untouched, otherwise insert into both maps and return the id. -/
def Registry.register (r : Registry) (msgType : String) :
    Except CodecError Nat × Registry :=
  let hash := fnv32a (utf8Bytes msgType)
  match r.idToName.lookup hash with
  | some existing =>
      if existing ≠ msgType then (.error .typeConflict, r)
      else (.ok hash, ⟨(msgType, hash) :: r.nameToID, (hash, msgType) :: r.idToName⟩)
  | none => (.ok hash, ⟨(msgType, hash) :: r.nameToID, (hash, msgType) :: r.idToName⟩)

/-- `Registry.GetID`. -/
def Registry.getID (r : Registry) (msgType : String) : Option Nat :=
  r.nameToID.lookup msgType

/-- `Registry.GetName`. -/
def Registry.getName (r : Registry) (id : Nat) : Option String :=
  r.idToName.lookup id

/-! ### Processor models — the `core` processor

`Listen`'s decode-error classification, its per-frame dispatch decision,
the timing of `Request`, and the write granularity of the outbound send
path are each modelled from the corresponding lines of the processor
source. -/

/-- The processor's `isRecoverableError`: the decision is by the string
form of the error; only "EOF" and "connection reset by peer" are
non-recoverable, every other error string falls to the default
recoverable case. -/
def isRecoverableError (e : CodecError) : Bool :=
  !(e.message == "EOF" || e.message == "connection reset by peer")

inductive ListenAction where
  | continueLoop
  | exitLoop
deriving DecidableEq, Repr

/-- What `Listen` does with a decode error: recoverable errors are
logged and the loop continues; non-recoverable errors make `Listen`
return. -/
def listenOnDecodeError (e : CodecError) : ListenAction :=
  if isRecoverableError e then .continueLoop else .exitLoop

/-- Where `Listen` routes a successfully decoded frame. -/
inductive Dispatch where
  | droppedUnknownType
  | droppedOversize
  | toWaiter (requestID : Nat)
  | toHandler
deriving DecidableEq, Repr

/-- One `Listen` iteration after a successful decode, from the frame's
`typeID`, raw payload and `requestID`: resolve the type name (unknown
ids are dropped), enforce `MessageSizeLimit` when positive, then — when
`requestID > 0` and the `RequestManager` has a pending entry — deliver
the response to that entry's single waiting channel and `CancelRequest`
it; otherwise dispatch to the registered handler.  The pending set of
the `RequestManager` (the key set of its `sync.Map`; one capacity-1
channel per key) is a `Finset Nat`. -/
def listenHandleFrame (reg : Registry) (sizeLimit : Int) (pending : Finset Nat)
    (typeID : Nat) (raw : List Nat) (requestID : Nat) : Dispatch × Finset Nat :=
  match reg.getName typeID with
  | none => (.droppedUnknownType, pending)
  | some _ =>
      if 0 < sizeLimit ∧ sizeLimit < (raw.length : Int) then (.droppedOversize, pending)
      else if 0 < requestID ∧ requestID ∈ pending then
        (.toWaiter requestID, pending.erase requestID)
      else (.toHandler, pending)

/-- Timeline of one `processor.Request` call, in time units measured
from the moment `StartRequest` returns.  The source then runs the
registry lookup, then `codec.Encode` — the outbound write, taking
`writeDur` — and only then enters the `select` on the response channel
versus `time.After(RequestTimeout)`; the timer therefore starts at
`writeDur`, not at zero.  `replyArrival` is the instant the read loop
buffers a response into the capacity-1 channel (`none` when no reply
ever arrives).  The value is the instant the caller returns: the reply
is taken as soon as the `select` runs and it is available, bounded by
the timer firing at `writeDur + timeout`. -/
def requestElapsed (writeDur timeout : Nat) (replyArrival : Option Nat) : Nat :=
  match replyArrival with
  | none => writeDur + timeout
  | some t => min (max writeDur t) (writeDur + timeout)

/-- Interleavings of two chunk sequences: the possible orders in which
the `Write` calls of two concurrent outbound frames can reach the
connection when nothing serializes them. -/
inductive Interleaving : List (List Nat) → List (List Nat) → List (List Nat) → Prop
  | nil : Interleaving [] [] []
  | left {x xs ys zs} : Interleaving xs ys zs → Interleaving (x :: xs) ys (x :: zs)
  | right {y xs ys zs} : Interleaving xs ys zs → Interleaving xs (y :: ys) (y :: zs)

/-- A wire trace keeps two frames un-interleaved when it is one frame's
chunks followed by the other's. -/
def FramesContiguous (xs ys zs : List (List Nat)) : Prop :=
  zs = xs ++ ys ∨ zs = ys ++ xs

/-! ### Round-trip lemmas -/

theorem extRegionLen_cons (t : TLV) (ts : List TLV) :
    extRegionLen (t :: ts) = (3 + t.value.length) + extRegionLen ts := by
  simp [extRegionLen]; omega

theorem versionFlags_split : ∀ f < 16,
    ((BalancedVersion <<< 4) ||| f) >>> 4 = BalancedVersion ∧
    ((BalancedVersion <<< 4) ||| f) &&& 0xF = f := by decide

theorem or_eight_of_bit : ∀ f < 16, f &&& 8 ≠ 0 → f ||| 8 = f := by decide

theorem toBytesBE_three (v : Nat) :
    toBytesBE 3 v = [v / 65536 % 256, v / 256 % 256, v % 256] := by
  simp [toBytesBE, Nat.div_div_eq_div_mul]

theorem toBytesBE_four (v : Nat) :
    toBytesBE 4 v = [v / 16777216 % 256, v / 65536 % 256, v / 256 % 256, v % 256] := by
  simp [toBytesBE, Nat.div_div_eq_div_mul]

theorem toBytesBE_eight (v : Nat) :
    toBytesBE 8 v = [v / 72057594037927936 % 256, v / 281474976710656 % 256,
      v / 1099511627776 % 256, v / 4294967296 % 256, v / 16777216 % 256,
      v / 65536 % 256, v / 256 % 256, v % 256] := by
  simp [toBytesBE, Nat.div_div_eq_div_mul]

theorem readTLVsAux_extRegion (extensions : List TLV) (rest : List Nat) (fuel : Nat)
    (hfuel : extensions.length < fuel) (hwf : ∀ t ∈ extensions, t.WF) :
    readTLVsAux fuel (extRegion extensions ++ rest)
      = .ok (extensions, extRegionLen extensions, rest) := by
  induction extensions generalizing fuel rest with
  | nil =>
      obtain ⟨f, rfl⟩ : ∃ f, fuel = f + 1 := ⟨fuel - 1, by omega⟩
      show readTLVsAux (f + 1) (([0, 0, 0] : List Nat) ++ rest) = _
      simp [readTLVsAux, extRegionLen]
  | cons t ts ih =>
      obtain ⟨f, rfl⟩ : ∃ f, fuel = f + 1 := ⟨fuel - 1, by omega⟩
      obtain ⟨hty, hpos, hlt, hlen⟩ := hwf t (List.mem_cons_self t ts)
      have hts : ∀ x ∈ ts, x.WF := fun x hx => hwf x (List.mem_cons_of_mem t hx)
      rw [extRegion_cons, List.append_assoc]
      simp only [encodeTLV, List.cons_append]
      rw [readTLVsAux]
      have hlen2 : (t.length / 256) % 256 * 256 + t.length % 256 = t.length := by omega
      rw [hlen2]
      have hne : ¬ t.length = 0 := by omega
      have hge : ¬ (t.value ++ (extRegion ts ++ rest)).length < t.length := by
        simp [List.length_append]; omega
      rw [if_neg hne, if_neg hge]
      have htake : (t.value ++ (extRegion ts ++ rest)).take t.length = t.value := by
        rw [hlen, List.take_left]
      have hdrop : (t.value ++ (extRegion ts ++ rest)).drop t.length = extRegion ts ++ rest := by
        rw [hlen, List.drop_left]
      rw [htake, hdrop, ih rest f (by simp at hfuel ⊢; omega) hts]
      have htymod : t.type % 256 = t.type := Nat.mod_eq_of_lt hty
      simp only [htymod]
      rw [extRegionLen_cons]
      have harith : extRegionLen ts + (3 + t.length) = 3 + t.value.length + extRegionLen ts := by
        omega
      rw [harith]

theorem length_le_extRegionLen (extensions : List TLV) :
    extensions.length < extRegionLen extensions := by
  induction extensions with
  | nil => simp [extRegionLen]
  | cons t ts ih =>
      rw [extRegionLen_cons]
      simp only [List.length_cons]
      omega

/-- The TLV read loop inverts the extension region construction: parsing
the encoded region (followed by anything) recovers the extension list in
wire order, the accumulated `extLen`, and the unread tail. -/
theorem readTLVs_extRegion (extensions : List TLV) (rest : List Nat)
    (hwf : ∀ t ∈ extensions, t.WF) :
    readTLVs (extRegion extensions ++ rest) = .ok (extensions, extRegionLen extensions, rest) := by
  have hbound := length_le_extRegionLen extensions
  have hlen := length_extRegion extensions
  refine readTLVsAux_extRegion extensions rest _ ?_ hwf
  simp only [List.length_append]
  omega

theorem readFull_exact (data rest : List Nat) :
    readFull data.length (data ++ rest) = .ok (data, rest) := by
  have h : data.length ≤ (data ++ rest).length := by simp
  simp [readFull, h, List.take_left, List.drop_left]

/-- The part of `DecodeWithFlags` that runs after the header fields are
validated and the extension region is read: steps 8 and 9 — the payload
length check and read, then the decryption step. -/
def decodeTail (encr : Option EncryptorModel)
    (flags typeID requestID total : Nat) (extensions : List TLV)
    (extLen : Nat) (rest2 : List Nat) : Except CodecError (Decoded × List Nat) :=
  if ((total : Int) - BalancedHeaderSize - extLen) < 0 then
    .error .invalidMessageFormat
  else
    match readFull ((total : Int) - BalancedHeaderSize - extLen).toNat rest2 with
    | .error e => .error e
    | .ok (payload, rest3) =>
      match decryptStep encr flags payload with
      | .error e => .error e
      | .ok p => .ok (⟨typeID, p, requestID, flags, extensions⟩, rest3)

/-- Decoding a stream that starts with a well-formed 21-byte header
reduces to the tail processing (extension region, payload, decryption)
with the header's field values. -/
theorem decode_header (encr : Option EncryptorModel)
    (flags total requestID typeID : Nat) (tail : List Nat)
    (hflags : flags < 16) (htid : typeID < 2 ^ 32) (hrid : requestID < 2 ^ 64)
    (hlo : BalancedHeaderSize ≤ total) (hhi : total < 2 ^ 24) :
    decodeWithFlags encr ((toBytesBE 4 MagicNumber
        ++ [(BalancedVersion <<< 4) ||| flags] ++ toBytesBE 3 total
        ++ toBytesBE 8 requestID ++ toBytesBE 4 typeID ++ [0]) ++ tail) =
      (match (if flags &&& BalancedFlagExtended ≠ 0 then readTLVs tail
              else .ok ([], 0, tail)) with
       | .error e => .error e
       | .ok (extensions, extLen, rest2) =>
          decodeTail encr flags typeID requestID total extensions extLen rest2) := by
  obtain ⟨hv, hf⟩ := versionFlags_split flags hflags
  have hmagic4 : toBytesBE 4 MagicNumber = [67, 72, 80, 77] := by decide
  rw [hmagic4, toBytesBE_three, toBytesBE_eight, toBytesBE_four]
  simp only [List.cons_append, List.nil_append, List.append_assoc]
  rw [decodeWithFlags]
  have hm : fromBytesBE [67, 72, 80, 77] = MagicNumber := by decide
  rw [if_neg (by rw [hm]; exact fun h => h rfl)]
  rw [← toBytesBE_three total, ← toBytesBE_eight requestID, ← toBytesBE_four typeID,
    fromBytesBE_toBytesBE, fromBytesBE_toBytesBE, fromBytesBE_toBytesBE]
  have h24 : (2 : Nat) ^ (8 * 3) = 2 ^ 24 := by norm_num
  have h64 : (2 : Nat) ^ (8 * 8) = 2 ^ 64 := by norm_num
  have h32 : (2 : Nat) ^ (8 * 4) = 2 ^ 32 := by norm_num
  rw [h24, h64, h32, Nat.mod_eq_of_lt hhi, Nat.mod_eq_of_lt hrid, Nat.mod_eq_of_lt htid,
    hv, hf]
  rw [if_neg (fun h => h rfl)]
  have hlen : ¬ (total < BalancedHeaderSize ∨ total > MaxMessageSize) := by
    simp only [BalancedHeaderSize, MaxMessageSize] at *
    omega
  rw [if_neg hlen]
  rfl

/-- On a stream holding exactly the declared number of payload bytes,
the tail processing returns the decryption of those bytes together with
the unread remainder. -/
theorem decodeTail_exact (encr : Option EncryptorModel)
    (flags typeID requestID extLen : Nat) (extensions : List TLV)
    (data rest : List Nat) :
    decodeTail encr flags typeID requestID
      (BalancedHeaderSize + extLen + data.length) extensions extLen (data ++ rest) =
    (decryptStep encr flags data).map
      (fun p => ((⟨typeID, p, requestID, flags, extensions⟩ : Decoded), rest)) := by
  unfold decodeTail
  have hval : ((BalancedHeaderSize + extLen + data.length : Nat) : Int)
      - BalancedHeaderSize - extLen = (data.length : Int) := by
    push_cast
    ring
  rw [hval]
  rw [if_neg (by omega : ¬ ((data.length : Int) < 0))]
  rw [show ((data.length : Int)).toNat = data.length by omega]
  rw [readFull_exact]
  cases hd : decryptStep encr flags data with
  | error e => simp [hd, Except.map]
  | ok p => simp [hd, Except.map]

/-- Master frame round-trip: a frame built by `encodeFrame` (steps 3–6
of `EncodeWithFlags`, after serialization and encryption) decodes back
to its field values, consuming exactly the frame's bytes; the decode
result is the decryption step applied to the embedded payload bytes. -/
theorem decode_encodeFrame (encr : Option EncryptorModel)
    (typeID : Nat) (data : List Nat) (requestID flags : Nat)
    (extensions : List TLV) (rest : List Nat)
    (htid : typeID < 2 ^ 32) (hrid : requestID < 2 ^ 64) (hflags : flags < 16)
    (hext : flags &&& BalancedFlagExtended ≠ 0 ↔ extensions ≠ [])
    (hwf : ∀ t ∈ extensions, t.WF)
    (htotal : BalancedHeaderSize + (if extensions = [] then 0 else extRegionLen extensions)
      + data.length < 2 ^ 24) :
    ∃ chunks, encodeFrame typeID data requestID flags extensions = .ok chunks ∧
      decodeWithFlags encr (chunks.flatten ++ rest) =
        (decryptStep encr flags data).map
          (fun p => ((⟨typeID, p, requestID, flags, extensions⟩ : Decoded), rest)) := by
  rcases eq_or_ne extensions [] with hne | hne
  · subst hne
    simp only [if_pos rfl] at htotal
    have hflag8 : flags &&& BalancedFlagExtended = 0 := by
      by_contra h
      exact (hext.mp h) rfl
    have hguard : BalancedHeaderSize + data.length ≤ MaxMessageSize := by
      simp only [BalancedHeaderSize, MaxMessageSize] at *
      omega
    have henc : encodeFrame typeID data requestID flags [] =
        .ok [toBytesBE 4 MagicNumber ++ [(BalancedVersion <<< 4) ||| flags]
          ++ toBytesBE 3 (BalancedHeaderSize + 0 + data.length)
          ++ toBytesBE 8 requestID ++ toBytesBE 4 typeID ++ [0], data] := by
      simp [encodeFrame, hguard]
    refine ⟨_, henc, ?_⟩
    have hflat : ([toBytesBE 4 MagicNumber ++ [(BalancedVersion <<< 4) ||| flags]
          ++ toBytesBE 3 (BalancedHeaderSize + 0 + data.length)
          ++ toBytesBE 8 requestID ++ toBytesBE 4 typeID ++ [0], data] : List (List Nat)).flatten
          ++ rest
        = (toBytesBE 4 MagicNumber ++ [(BalancedVersion <<< 4) ||| flags]
          ++ toBytesBE 3 (BalancedHeaderSize + 0 + data.length)
          ++ toBytesBE 8 requestID ++ toBytesBE 4 typeID ++ [0]) ++ (data ++ rest) := by
      simp
    rw [hflat, decode_header encr flags (BalancedHeaderSize + 0 + data.length) requestID
      typeID (data ++ rest) hflags htid hrid (by omega) (by omega)]
    rw [if_neg (fun h => h hflag8)]
    show decodeTail encr flags typeID requestID (BalancedHeaderSize + 0 + data.length)
      [] 0 (data ++ rest) = _
    exact decodeTail_exact encr flags typeID requestID 0 [] data rest
  · have hflag8 : flags &&& BalancedFlagExtended ≠ 0 := hext.mpr hne
    simp only [if_neg hne] at htotal
    have hor : flags ||| BalancedFlagExtended = flags :=
      or_eight_of_bit flags hflags hflag8
    have hguard : ¬ (BalancedHeaderSize + extRegionLen extensions + data.length
        > MaxMessageSize) := by
      simp only [BalancedHeaderSize, MaxMessageSize] at *
      omega
    have hpos : 0 < extRegionLen extensions := by
      simp only [extRegionLen]
      omega
    have henc : encodeFrame typeID data requestID flags extensions =
        .ok [toBytesBE 4 MagicNumber ++ [(BalancedVersion <<< 4) ||| flags]
          ++ toBytesBE 3 (BalancedHeaderSize + extRegionLen extensions + data.length)
          ++ toBytesBE 8 requestID ++ toBytesBE 4 typeID ++ [0],
          extRegion extensions, data] := by
      simp [encodeFrame, hne, hor, length_extRegion, hguard, hpos]
    refine ⟨_, henc, ?_⟩
    have hflat : ([toBytesBE 4 MagicNumber ++ [(BalancedVersion <<< 4) ||| flags]
          ++ toBytesBE 3 (BalancedHeaderSize + extRegionLen extensions + data.length)
          ++ toBytesBE 8 requestID ++ toBytesBE 4 typeID ++ [0],
          extRegion extensions, data] : List (List Nat)).flatten ++ rest
        = (toBytesBE 4 MagicNumber ++ [(BalancedVersion <<< 4) ||| flags]
          ++ toBytesBE 3 (BalancedHeaderSize + extRegionLen extensions + data.length)
          ++ toBytesBE 8 requestID ++ toBytesBE 4 typeID ++ [0])
          ++ (extRegion extensions ++ (data ++ rest)) := by
      simp
    rw [hflat, decode_header encr flags
      (BalancedHeaderSize + extRegionLen extensions + data.length) requestID
      typeID (extRegion extensions ++ (data ++ rest)) hflags htid hrid
      (by omega) (by omega)]
    rw [if_pos hflag8, readTLVs_extRegion extensions (data ++ rest) hwf]
    show decodeTail encr flags typeID requestID
      (BalancedHeaderSize + extRegionLen extensions + data.length)
      extensions (extRegionLen extensions) (data ++ rest) = _
    exact decodeTail_exact encr flags typeID requestID
      (extRegionLen extensions) extensions data rest

theorem fnv32a_lt (bytes : List Nat) : fnv32a bytes < 2 ^ 32 := by
  have h : ∀ (l : List Nat) (h0 : Nat), h0 < 2 ^ 32 →
      l.foldl (fun h b => ((h ^^^ b) * 16777619) % 4294967296) h0 < 2 ^ 32 := by
    intro l
    induction l with
    | nil => intro h0 hh; exact hh
    | cons b bs ih =>
        intro h0 hh
        exact ih _ (Nat.mod_lt _ (by norm_num))
  exact h _ _ (by norm_num)

/-- Every successful `encodeFrame` issues at least two writes, and the
last write is exactly the payload bytes. -/
theorem encodeFrame_shape (typeID : Nat) (data : List Nat) (requestID flags : Nat)
    (extensions : List TLV) (chunks : List (List Nat))
    (h : encodeFrame typeID data requestID flags extensions = .ok chunks) :
    2 ≤ chunks.length ∧ chunks.getLast? = some data := by
  rcases eq_or_ne extensions [] with hne | hne
  · subst hne
    simp only [encodeFrame, ne_eq, not_true_eq_false, if_false, ite_self,
      List.length_nil, gt_iff_lt, Nat.lt_irrefl] at h
    split at h
    · exact absurd h (by simp)
    · obtain rfl : _ = chunks := by injection h
      exact ⟨by simp, rfl⟩
  · have hpos : 0 < extRegionLen extensions := by
      simp only [extRegionLen]
      omega
    simp only [encodeFrame, ne_eq, hne, not_false_eq_true, if_true, length_extRegion,
      ite_self, gt_iff_lt, hpos, if_pos] at h
    split at h
    · exact absurd h (by simp)
    · obtain rfl : _ = chunks := by injection h
      exact ⟨by simp, rfl⟩

/-! ### Claim theorems -/

/-- C1: the claim (and the Go constant's own doc comment) says the fixed
header is exactly 20 bytes, the declared total length is
`20 + |extensions| + |payload|`, and decode rejects declared lengths
below 20.  The code's `BalancedHeaderSize` is 21: evaluated at the
failing input (type id 0, empty binary payload, request id 0, no flags,
no extensions), the encoded frame is a 21-byte header chunk followed by
the empty payload chunk, its declared length field (bytes 5–7) reads 21,
and a frame declaring total length 20 — legal under the claim — is
rejected with `InvalidLength`. -/
theorem C1_header_size_eval :
    encodeWithFlags binarySerializer none 0 ([] : List Nat) 0 0 [] =
      .ok [[67, 72, 80, 77, 32, 0, 0, 21, 0, 0, 0, 0, 0, 0, 0, 0, 0, 0, 0, 0, 0], []]
    ∧ ([67, 72, 80, 77, 32, 0, 0, 21, 0, 0, 0, 0, 0, 0, 0, 0, 0, 0, 0, 0, 0] : List Nat).length
        = 21
    ∧ fromBytesBE [0, 0, 21] = 21
    ∧ decodeWithFlags none ([67, 72, 80, 77, 32, 0, 0, 20] ++ List.replicate 13 0) =
        .error .invalidLength := by
  decide

/-- C2 counterexample: the claim quantifies over all tuples whose flags
lie in the valid subset `{Compressed, Encrypted, Extended}`; taking
`flags = Extended` with an empty extension list (allowed by the data
model, which only requires extensions to be empty when `Extended` is
clear), the encoded frame carries the `Extended` flag but no sentinel,
so decode consumes the first three payload bytes as the region
terminator: the payload `[0, 0, 0]` round-trips to `[]`, which does not
deserialize to a value equal to the original. -/
theorem C2_roundtrip_counterexample :
    (encodeWithFlags binarySerializer none (fnv32a (utf8Bytes "evt")) [0, 0, 0] 0
        BalancedFlagExtended []).bind
      (fun chunks => decodeWithFlags none chunks.flatten) =
      .ok (⟨fnv32a (utf8Bytes "evt"), [], 0, 8, []⟩, [])
    ∧ binarySerializer.deserialize [] = .ok ([] : List Nat)
    ∧ ([] : List Nat) ≠ [0, 0, 0] := by
  decide

/-- C2 (amended): for every tuple (type name, payload, request id,
flags, extensions) such that the serializer round-trips the payload, the
encryption step succeeds and its decryption step inverts it (vacuous
when the `Encrypted` flag is clear; requires a configured encryptor
otherwise), the flags are a 4-bit value whose `Extended` bit is set
exactly when the extension list is non-empty, every extension is a
well-formed TLV, and the total framed size is strictly below 16 MiB,
decoding the concatenated bytes produced by encoding yields the same
type id (the FNV-1a-32 hash of the name), the same request id, the same
flags, the same ordered extension list, and a payload that deserializes
to a value equal to the original — consuming exactly the frame's
bytes. -/
theorem C2_roundtrip {α : Type} (S : SerializerModel α) (encr : Option EncryptorModel)
    (typeName : String) (payload : α) (data wireData : List Nat)
    (requestID flags : Nat) (extensions : List TLV) (rest : List Nat)
    (hser : S.serialize payload = .ok data)
    (hdeser : S.deserialize data = .ok payload)
    (hencr : encryptStep encr flags data = .ok wireData)
    (hdecr : decryptStep encr flags wireData = .ok data)
    (hrid : requestID < 2 ^ 64) (hflags : flags < 16)
    (hext : flags &&& BalancedFlagExtended ≠ 0 ↔ extensions ≠ [])
    (hwf : ∀ t ∈ extensions, t.WF)
    (htotal : BalancedHeaderSize + (if extensions = [] then 0 else extRegionLen extensions)
      + wireData.length < 2 ^ 24) :
    ∃ chunks,
      encodeWithFlags S encr (fnv32a (utf8Bytes typeName)) payload requestID flags extensions
        = .ok chunks
      ∧ decodeWithFlags encr (chunks.flatten ++ rest) =
          .ok (⟨fnv32a (utf8Bytes typeName), data, requestID, flags, extensions⟩, rest)
      ∧ S.deserialize data = .ok payload := by
  obtain ⟨chunks, hef, hdec⟩ := decode_encodeFrame encr (fnv32a (utf8Bytes typeName))
    wireData requestID flags extensions rest (fnv32a_lt _) hrid hflags hext hwf htotal
  refine ⟨chunks, ?_, ?_, hdeser⟩
  · simp only [encodeWithFlags, hser, hencr, hef, Bind.bind, Except.bind]
  · rw [hdec, hdecr]
    rfl

/-- C2 witness instantiation. -/
theorem C2_roundtrip_witness :
    binarySerializer.serialize [9] = .ok [9]
    ∧ (∃ chunks,
        encodeWithFlags binarySerializer none (fnv32a (utf8Bytes "echo")) [9] 5 0 []
          = .ok chunks
        ∧ decodeWithFlags none (chunks.flatten ++ [1, 2]) =
            .ok (⟨fnv32a (utf8Bytes "echo"), [9], 5, 0, []⟩, [1, 2])
        ∧ binarySerializer.deserialize [9] = .ok [9]) :=
  ⟨rfl, C2_roundtrip binarySerializer none "echo" [9] [9] [9] 5 0 [] [1, 2]
    rfl rfl (by decide) (by decide) (by decide) (by decide) (by decide)
    (by simp) (by decide)⟩

/-- C3 counterexample: the processor's `isRecoverableError` matches the
error's string form against "EOF" and "connection reset by peer" only,
so all four malformed-frame codec errors fall to the default recoverable
case and `Listen` continues reading instead of returning. -/
theorem C3_fatal_counterexample :
    listenOnDecodeError .invalidMagic = .continueLoop
    ∧ listenOnDecodeError .unsupportedVersion = .continueLoop
    ∧ listenOnDecodeError .invalidLength = .continueLoop
    ∧ listenOnDecodeError .invalidMessageFormat = .continueLoop
    ∧ ListenAction.continueLoop ≠ ListenAction.exitLoop := by
  decide

/-- C3 (amended): `Listen` exits on a decode error exactly when the
error's string form is "EOF" or "connection reset by peer"; the
malformed-frame errors `InvalidMagic`, `UnsupportedVersion`,
`InvalidLength` and `InvalidMessageFormat` are classified recoverable
and the read loop continues past them. -/
theorem C3_classification (e : CodecError) :
    listenOnDecodeError e = .exitLoop ↔
      (e.message = "EOF" ∨ e.message = "connection reset by peer") := by
  unfold listenOnDecodeError isRecoverableError
  split <;> rename_i h
  · simp_all
  · simp_all
    tauto

/-- C4 counterexample: the claim says the caller gets a response or the
timeout error within the configured window measured from `StartRequest`,
regardless of the transport; with an outbound write that blocks for 5
units, a 1-unit timeout and no reply, the caller returns only after 6
units. -/
theorem C4_timeout_counterexample :
    requestElapsed 5 1 none = 6 ∧ ¬ requestElapsed 5 1 none ≤ 1 := by
  decide

/-- C4 (amended): the `select` on the response channel versus
`time.After(RequestTimeout)` is entered only after `codec.Encode`
returns, so the timeout window opens when the outbound write completes:
the caller returns within the write duration plus the configured
timeout, not within the timeout alone. -/
theorem C4_request_bound (writeDur timeout : Nat) (replyArrival : Option Nat) :
    requestElapsed writeDur timeout replyArrival ≤ writeDur + timeout := by
  cases replyArrival with
  | none => exact Nat.le_refl _
  | some t => exact min_le_right _ _

/-- C5 counterexample: the claim says a write mutex in the encode path
serializes connection writes so frame bytes are never interleaved; the
processor's `Send` passes the connection straight to `codec.Encode`
with no lock, and `Encode` emits header and payload in separate
`Write` calls, so in the unsynchronized interleaving model two
concurrent `Send`s can reach the connection as header-A, header-B,
payload-A, payload-B — a trace in which neither frame's bytes are
contiguous. -/
theorem C5_interleaving_counterexample :
    encodeWithFlags binarySerializer none 1 ([9] : List Nat) 0 0 [] =
      .ok [[67, 72, 80, 77, 32, 0, 0, 22, 0, 0, 0, 0, 0, 0, 0, 0, 0, 0, 0, 1, 0], [9]]
    ∧ encodeWithFlags binarySerializer none 2 ([7] : List Nat) 0 0 [] =
      .ok [[67, 72, 80, 77, 32, 0, 0, 22, 0, 0, 0, 0, 0, 0, 0, 0, 0, 0, 0, 2, 0], [7]]
    ∧ Interleaving
        [[67, 72, 80, 77, 32, 0, 0, 22, 0, 0, 0, 0, 0, 0, 0, 0, 0, 0, 0, 1, 0], [9]]
        [[67, 72, 80, 77, 32, 0, 0, 22, 0, 0, 0, 0, 0, 0, 0, 0, 0, 0, 0, 2, 0], [7]]
        [[67, 72, 80, 77, 32, 0, 0, 22, 0, 0, 0, 0, 0, 0, 0, 0, 0, 0, 0, 1, 0],
         [67, 72, 80, 77, 32, 0, 0, 22, 0, 0, 0, 0, 0, 0, 0, 0, 0, 0, 0, 2, 0], [9], [7]]
    ∧ ¬ FramesContiguous
        [[67, 72, 80, 77, 32, 0, 0, 22, 0, 0, 0, 0, 0, 0, 0, 0, 0, 0, 0, 1, 0], [9]]
        [[67, 72, 80, 77, 32, 0, 0, 22, 0, 0, 0, 0, 0, 0, 0, 0, 0, 0, 0, 2, 0], [7]]
        [[67, 72, 80, 77, 32, 0, 0, 22, 0, 0, 0, 0, 0, 0, 0, 0, 0, 0, 0, 1, 0],
         [67, 72, 80, 77, 32, 0, 0, 22, 0, 0, 0, 0, 0, 0, 0, 0, 0, 0, 0, 2, 0], [9], [7]] := by
  refine ⟨by decide, by decide, ?_, ?_⟩
  · exact .left (.right (.left (.right .nil)))
  · unfold FramesContiguous
    decide

/-- C5 (amended): the send paths hold no write lock around
`codec.Encode`, and every successful encode issues at least two
separate connection writes (the 21-byte header first and the payload
last), so whole-frame write atomicity is not provided by the encode
path; non-contiguous interleavings of two concurrent frames are
reachable in the unsynchronized model (exhibited in the
counterexample). -/
theorem C5_encode_write_granularity {α : Type} (S : SerializerModel α)
    (encr : Option EncryptorModel) (typeID : Nat) (payload : α)
    (requestID flags : Nat) (extensions : List TLV) (chunks : List (List Nat))
    (h : encodeWithFlags S encr typeID payload requestID flags extensions = .ok chunks) :
    2 ≤ chunks.length := by
  unfold encodeWithFlags at h
  cases hser : S.serialize payload with
  | error e =>
      rw [hser] at h
      exact absurd h (by simp [Bind.bind, Except.bind])
  | ok data =>
      rw [hser] at h
      simp only [Bind.bind, Except.bind] at h
      cases hencr : encryptStep encr flags data with
      | error e =>
          rw [hencr] at h
          exact absurd h (by simp)
      | ok wire =>
          rw [hencr] at h
          exact (encodeFrame_shape _ _ _ _ _ _ h).1

/-- C5 witness instantiation. -/
theorem C5_encode_write_granularity_witness :
    encodeWithFlags binarySerializer none 1 ([9] : List Nat) 0 0 [] =
      .ok [[67, 72, 80, 77, 32, 0, 0, 22, 0, 0, 0, 0, 0, 0, 0, 0, 0, 0, 0, 1, 0], [9]]
    ∧ 2 ≤ ([[67, 72, 80, 77, 32, 0, 0, 22, 0, 0, 0, 0, 0, 0, 0, 0, 0, 0, 0, 1, 0],
        [9]] : List (List Nat)).length :=
  ⟨by decide, C5_encode_write_granularity binarySerializer none 1 [9] 0 0 [] _ (by decide)⟩

/-- C6: a frame whose positive request id has a pending entry in the
`RequestManager` is routed to that entry's single waiting channel and
never to a handler; the entry is then cancelled, so the id is no longer
pending and a second frame carrying the same request id is dispatched
to the registered handler instead of being treated as a reply. -/
theorem C6_reply_delivery (reg : Registry) (sizeLimit : Int) (pending : Finset Nat)
    (typeID : Nat) (raw : List Nat) (requestID : Nat) (name : String)
    (hname : reg.getName typeID = some name)
    (hsize : ¬ (0 < sizeLimit ∧ sizeLimit < (raw.length : Int)))
    (hreq : 0 < requestID) (hpend : requestID ∈ pending) :
    (listenHandleFrame reg sizeLimit pending typeID raw requestID).1 = .toWaiter requestID
    ∧ (listenHandleFrame reg sizeLimit pending typeID raw requestID).1 ≠ .toHandler
    ∧ requestID ∉ (listenHandleFrame reg sizeLimit pending typeID raw requestID).2
    ∧ (listenHandleFrame reg sizeLimit
        (listenHandleFrame reg sizeLimit pending typeID raw requestID).2
        typeID raw requestID).1 = .toHandler := by
  have hstep : listenHandleFrame reg sizeLimit pending typeID raw requestID =
      (.toWaiter requestID, pending.erase requestID) := by
    simp only [listenHandleFrame, hname]
    rw [if_neg hsize, if_pos ⟨hreq, hpend⟩]
  rw [hstep]
  refine ⟨rfl, by simp, Finset.not_mem_erase _ _, ?_⟩
  simp only [listenHandleFrame, hname]
  rw [if_neg hsize, if_neg (fun hc => Finset.not_mem_erase requestID pending hc.2)]

/-- C6 witness instantiation. -/
theorem C6_reply_delivery_witness :
    ((Registry.empty.register "echo").2.getName (fnv32a (utf8Bytes "echo")) = some "echo")
    ∧ ((listenHandleFrame (Registry.empty.register "echo").2 0 {5}
          (fnv32a (utf8Bytes "echo")) [] 5).1 = .toWaiter 5
      ∧ (listenHandleFrame (Registry.empty.register "echo").2 0 {5}
          (fnv32a (utf8Bytes "echo")) [] 5).1 ≠ .toHandler
      ∧ 5 ∉ (listenHandleFrame (Registry.empty.register "echo").2 0 {5}
          (fnv32a (utf8Bytes "echo")) [] 5).2
      ∧ (listenHandleFrame (Registry.empty.register "echo").2 0
          (listenHandleFrame (Registry.empty.register "echo").2 0 {5}
            (fnv32a (utf8Bytes "echo")) [] 5).2
          (fnv32a (utf8Bytes "echo")) [] 5).1 = .toHandler) :=
  ⟨by decide,
   C6_reply_delivery (Registry.empty.register "echo").2 0 {5} (fnv32a (utf8Bytes "echo"))
     [] 5 "echo" (by decide) (by decide) (by decide) (by decide)⟩

/-- C7: registration is idempotent — after a successful `Register(n)`,
registering `n` again succeeds with the same FNV-1a-32 id — and when a
different name `m` hashes to the same 32-bit value, the second
`Register` returns `TypeConflict` and leaves both registry maps
unchanged. -/
theorem C7_register_idempotent_conflict (r : Registry) (n m : String) (id : Nat)
    (hok : (r.register n).1 = .ok id) :
    ((r.register n).2.register n).1 = .ok id
    ∧ (n ≠ m → fnv32a (utf8Bytes m) = fnv32a (utf8Bytes n) →
        (r.register n).2.register m = (.error .typeConflict, (r.register n).2)) := by
  have hstep : r.register n = (.ok (fnv32a (utf8Bytes n)),
      ⟨(n, fnv32a (utf8Bytes n)) :: r.nameToID, (fnv32a (utf8Bytes n), n) :: r.idToName⟩)
      ∧ id = fnv32a (utf8Bytes n) := by
    simp only [Registry.register] at hok ⊢
    cases hl : r.idToName.lookup (fnv32a (utf8Bytes n)) with
    | none =>
        rw [hl] at hok
        refine ⟨rfl, ?_⟩
        have h2 : Except.ok (fnv32a (utf8Bytes n)) = Except.ok id := hok
        injection h2 with h3
        exact h3.symm
    | some ex =>
        by_cases hex : ex = n
        · subst hex
          simp only [hl, ne_eq, not_true_eq_false, if_false] at hok
          refine ⟨by simp, ?_⟩
          have h2 : Except.ok (fnv32a (utf8Bytes ex)) = Except.ok id := hok
          injection h2 with h3
          exact h3.symm
        · simp [hl, hex] at hok
  obtain ⟨hr1, hid⟩ := hstep
  subst hid
  rw [hr1]
  constructor
  · simp [Registry.register, List.lookup]
  · intro hne hcol
    simp only [Registry.register, hcol, List.lookup, beq_self_eq_true]
    rw [if_pos hne]

/-- C7 witness instantiation at the known FNV-1a-32 collision pair
"costarring" / "liquid" (both hash to 1582148253). -/
theorem C7_register_witness :
    ((Registry.empty.register "costarring").1 = .ok 1582148253)
    ∧ ("costarring" ≠ "liquid")
    ∧ (fnv32a (utf8Bytes "liquid") = fnv32a (utf8Bytes "costarring"))
    ∧ (((Registry.empty.register "costarring").2.register "costarring").1 = .ok 1582148253)
    ∧ ((Registry.empty.register "costarring").2.register "liquid"
        = (.error .typeConflict, (Registry.empty.register "costarring").2)) :=
  ⟨by decide, by decide, by decide,
   (C7_register_idempotent_conflict Registry.empty "costarring" "liquid" 1582148253
     (by decide)).1,
   (C7_register_idempotent_conflict Registry.empty "costarring" "liquid" 1582148253
     (by decide)).2 (by decide) (by decide)⟩

/-- C8: with the `Encrypted` flag set and no configured encryptor,
`EncodeWithFlags` fails with `EncryptionFailed` before issuing any
write (the check precedes all `Write` calls; in this model an encode
that fails produces no chunks), and `DecodeWithFlags` reads the whole
frame and then fails with `DecryptionFailed`; with an encryptor
configured, the emitted payload chunk — the last write — is exactly
`Encrypt(serialized)`, and decode replaces the wire payload with its
`Decrypt` before returning. -/
theorem C8_encryption_envelope {α : Type} (S : SerializerModel α) (e : EncryptorModel)
    (typeID : Nat) (payload : α) (data wireData : List Nat)
    (requestID flags : Nat) (extensions : List TLV) (rest : List Nat)
    (hser : S.serialize payload = .ok data)
    (hflag : flags &&& BalancedFlagEncrypted ≠ 0)
    (htid : typeID < 2 ^ 32) (hrid : requestID < 2 ^ 64) (hflags : flags < 16)
    (hext : flags &&& BalancedFlagExtended ≠ 0 ↔ extensions ≠ [])
    (hwf : ∀ t ∈ extensions, t.WF)
    (hencr : e.encrypt data = .ok wireData)
    (htotal : BalancedHeaderSize + (if extensions = [] then 0 else extRegionLen extensions)
      + wireData.length < 2 ^ 24) :
    encodeWithFlags S none typeID payload requestID flags extensions
        = .error .encryptionFailed
    ∧ ∃ chunks,
        encodeWithFlags S (some e) typeID payload requestID flags extensions = .ok chunks
        ∧ chunks.getLast? = some wireData
        ∧ decodeWithFlags none (chunks.flatten ++ rest) = .error .decryptionFailed
        ∧ (∀ plain, e.decrypt wireData = .ok plain →
            decodeWithFlags (some e) (chunks.flatten ++ rest) =
              .ok (⟨typeID, plain, requestID, flags, extensions⟩, rest)) := by
  obtain ⟨chunks, hef, hdecN⟩ := decode_encodeFrame none typeID wireData requestID flags
    extensions rest htid hrid hflags hext hwf htotal
  obtain ⟨chunks2, hef2, hdecS⟩ := decode_encodeFrame (some e) typeID wireData requestID flags
    extensions rest htid hrid hflags hext hwf htotal
  have hceq : chunks2 = chunks := by
    have h2 := hef.symm.trans hef2
    injection h2 with h3
    exact h3.symm
  rw [hceq] at hdecS hef2
  refine ⟨?_, chunks, ?_, (encodeFrame_shape _ _ _ _ _ _ hef).2, ?_, ?_⟩
  · simp [encodeWithFlags, hser, encryptStep, hflag, Bind.bind, Except.bind]
  · simp only [encodeWithFlags, hser, Bind.bind, Except.bind, encryptStep, if_pos hflag,
      hencr, hef]
  · rw [hdecN]
    simp [decryptStep, hflag, Except.map]
  · intro plain hplain
    rw [hdecS]
    simp [decryptStep, hflag, hplain, Except.map]

/-- C8 witness instantiation (a toy encryptor that prepends a byte on
encrypt and strips it on decrypt). -/
theorem C8_encryption_envelope_witness :
    encodeWithFlags binarySerializer none 3 ([1] : List Nat) 4 2 []
      = .error .encryptionFailed :=
  (C8_encryption_envelope binarySerializer
    ⟨fun d => .ok (0 :: d), fun d => .ok d.tail⟩ 3 [1] [1] [0, 1] 4 2 [] []
    rfl (by decide) (by decide) (by decide) (by decide) (by decide)
    (by simp) rfl (by decide)).1

/-- C9: constructing the AES encryptor succeeds exactly for key lengths
16, 24 and 32 (anything else fails with `InvalidKey`), and — for any
AEAD whose open inverts its seal, which is the contract of Go's
`crypto/cipher` GCM — `Decrypt(Encrypt(m)) = m`: `Encrypt` prepends the
drawn nonce to the sealed bytes and `Decrypt` splits it back off and
opens. -/
theorem C9_aes_key_and_roundtrip (key : List Nat) (g : GCMModel) (nonce m : List Nat) :
    ((key.length = 16 ∨ key.length = 24 ∨ key.length = 32) →
      NewAESEncryptor key = .ok ⟨key⟩)
    ∧ ((key.length ≠ 16 ∧ key.length ≠ 24 ∧ key.length ≠ 32) →
      NewAESEncryptor key = .error .invalidKey)
    ∧ (nonce.length = g.nonceSize →
      g.aeadOpen nonce (g.aeadSeal nonce m) = some m →
      AESEncryptor.decryptWith g ⟨key⟩ (AESEncryptor.encryptWith g nonce ⟨key⟩ m)
        = .ok m) := by
  refine ⟨?_, ?_, ?_⟩
  · intro h
    unfold NewAESEncryptor
    rw [if_neg (by rcases h with h | h | h <;> simp [h])]
  · intro h
    unfold NewAESEncryptor
    rw [if_pos h]
  · intro hnon hopen
    unfold AESEncryptor.encryptWith AESEncryptor.decryptWith
    have hlen : ¬ ((nonce ++ g.aeadSeal nonce m).length < g.nonceSize) := by
      simp only [List.length_append]
      omega
    rw [if_neg hlen, ← hnon, List.take_left, List.drop_left, hopen]

/-- C9 witness instantiation (valid and invalid key lengths, trivial
AEAD). -/
theorem C9_aes_witness :
    NewAESEncryptor (List.replicate 16 0) = .ok ⟨List.replicate 16 0⟩
    ∧ NewAESEncryptor [1, 2, 3] = .error .invalidKey
    ∧ AESEncryptor.decryptWith ⟨2, fun _ d => d, fun _ c => some c⟩ ⟨List.replicate 16 0⟩
        (AESEncryptor.encryptWith ⟨2, fun _ d => d, fun _ c => some c⟩ [0, 0]
          ⟨List.replicate 16 0⟩ [5]) = .ok [5] :=
  ⟨(C9_aes_key_and_roundtrip (List.replicate 16 0)
      ⟨2, fun _ d => d, fun _ c => some c⟩ [0, 0] [5]).1 (Or.inl (by decide)),
   (C9_aes_key_and_roundtrip [1, 2, 3]
      ⟨2, fun _ d => d, fun _ c => some c⟩ [0, 0] [5]).2.1 (by decide),
   (C9_aes_key_and_roundtrip (List.replicate 16 0)
      ⟨2, fun _ d => d, fun _ c => some c⟩ [0, 0] [5]).2.2 rfl rfl⟩

/-- C10: on a frame whose declared total length is smaller than the
fixed header plus the extension region actually parsed from the stream,
`DecodeWithFlags` returns `InvalidMessageFormat`: the payload length is
computed as a signed value, its negativity is caught before any payload
buffer is built (payload buffers in this model are `List.take` of a
natural number and cannot have negative length). -/
theorem C10_negative_payload_guard (encr : Option EncryptorModel)
    (flags total requestID typeID : Nat) (tail : List Nat)
    (extensions : List TLV) (extLen : Nat) (rest2 : List Nat)
    (hflags : flags < 16) (htid : typeID < 2 ^ 32) (hrid : requestID < 2 ^ 64)
    (hlo : BalancedHeaderSize ≤ total) (hhi : total < 2 ^ 24)
    (hflag8 : flags &&& BalancedFlagExtended ≠ 0)
    (htlv : readTLVs tail = .ok (extensions, extLen, rest2))
    (hneg : total < BalancedHeaderSize + extLen) :
    decodeWithFlags encr ((toBytesBE 4 MagicNumber
        ++ [(BalancedVersion <<< 4) ||| flags] ++ toBytesBE 3 total
        ++ toBytesBE 8 requestID ++ toBytesBE 4 typeID ++ [0]) ++ tail)
      = .error .invalidMessageFormat := by
  rw [decode_header encr flags total requestID typeID tail hflags htid hrid hlo hhi,
    if_pos hflag8, htlv]
  show decodeTail encr flags typeID requestID total extensions extLen rest2 = _
  unfold decodeTail
  rw [if_pos (by omega)]

/-- C10 witness instantiation: Extended flag set, declared total length
21, extension region of 3 sentinel bytes — payload length would be
−3. -/
theorem C10_negative_payload_witness :
    readTLVs [0, 0, 0] = .ok ([], 3, [])
    ∧ decodeWithFlags none ((toBytesBE 4 MagicNumber
        ++ [(BalancedVersion <<< 4) ||| 8] ++ toBytesBE 3 21
        ++ toBytesBE 8 0 ++ toBytesBE 4 0 ++ [0]) ++ [0, 0, 0])
      = .error .invalidMessageFormat :=
  ⟨by decide,
   C10_negative_payload_guard none 8 21 0 0 [0, 0, 0] [] 3 []
     (by decide) (by decide) (by decide) (by decide) (by decide) (by decide)
     (by decide) (by decide)⟩

end ChilixMsg
